import Mathlib

/-!
Shallow embedding of the copilot-api Responses gateway
(`src/services/copilot/create-responses.ts`, `routes/responses/types.ts`,
`routes/responses/handler.ts`, `routes/responses/translation.ts`).

JavaScript optional / nullable string fields are modelled as `Option String`;
JavaScript truthiness on such a field (`if (x)`, `x || y`) is modelled by
`jsTruthyStr` / `jsOr`.  Un-inspected JSON blobs (tool `parameters`) pass
through translation verbatim and are modelled by their serialized text.
-/

namespace CopilotProxy

/-- JS truthiness of a `string | null | undefined` value: `undefined`, `null`
and `""` are falsy, every other string is truthy. -/
def jsTruthyStr : Option String → Bool
  | none => false
  | some s => s ≠ ""

/-- JS `a || b` on two `string | undefined` values. -/
def jsOr (a b : Option String) : Option String :=
  if jsTruthyStr a then a else b

/-- Content-part union `ResponsesContentPart` from `routes/responses/types.ts`. -/
inductive ResponsesContentPart where
  | input_text (text : String)
  | input_image (image_url : String) (detail : Option String)
  | input_file (file_url filename file_data file_id : Option String)
  | output_text (text : String)
deriving DecidableEq, Repr

/-- Union `string | Array<ResponsesContentPart>` (message / output content). -/
inductive StrOrParts where
  | str (s : String)
  | parts (ps : List ResponsesContentPart)
deriving DecidableEq, Repr

/-- Role of a `ResponsesMessageInput` (`"user" | "assistant"`). -/
inductive MsgRole where
  | user
  | assistant
deriving DecidableEq, Repr

/-- Input-item union `ResponsesInputItem` from `routes/responses/types.ts`:
role-bearing messages and typed items. -/
inductive ResponsesInputItem where
  | systemMessage (content : String)
  | developerMessage (content : String)
  | userMessage (content : StrOrParts)
  | assistantMessage (content : StrOrParts) (id : Option String)
  | messageInput (role : MsgRole) (content : StrOrParts) (id : Option String)
  | functionCall (call_id name arguments : String) (id : Option String)
  | functionCallOutput (call_id : String) (output : StrOrParts)
  | itemReference (id : String)
deriving DecidableEq, Repr

/-- Tool declaration `ResponsesTool`; `parameters` is an un-inspected JSON
object carried as its serialized text. -/
structure ResponsesTool where
  name : String
  description : Option String
  parameters : String
  strict : Option Bool
deriving DecidableEq, Repr

/-- Tool-choice union: a mode string `"none" | "auto" | "required"`, or a named
function choice. -/
inductive ResponsesToolChoice where
  | mode (s : String)
  | function (name : String)
deriving DecidableEq, Repr

/-- Request envelope `ResponsesPayload` (Responses-shaped). -/
structure ResponsesPayload where
  model : String
  input : List ResponsesInputItem
  instructions : Option String
  max_output_tokens : Option Nat
  temperature : Option Rat
  top_p : Option Rat
  stream : Option Bool
  tools : Option (List ResponsesTool)
  tool_choice : Option ResponsesToolChoice
deriving DecidableEq, Repr

/-! ## Chat-Completions shapes, as used by `translation.ts` -/

/-- Chat `ContentPart`: only image parts are ever produced by translation. -/
inductive ContentPart where
  | image_url (url : String) (detail : Option String)
deriving DecidableEq, Repr

/-- Chat message `content`: `string | Array<ContentPart> | null`. -/
inductive ChatMessageContent where
  | str (s : String)
  | parts (ps : List ContentPart)
  | null
deriving DecidableEq, Repr

/-- A tool call on an assistant chat message. -/
structure MessageToolCall where
  id : String
  name : String
  arguments : String
deriving DecidableEq, Repr

/-- Chat `Message`; fields that a given construction site omits are `none`. -/
structure Message where
  role : String
  content : ChatMessageContent
  tool_calls : Option (List MessageToolCall)
  tool_call_id : Option String
deriving DecidableEq, Repr

/-- Chat `Tool` declaration. -/
structure Tool where
  name : String
  description : Option String
  parameters : String
deriving DecidableEq, Repr

/-- Chat `tool_choice`. -/
inductive ChatToolChoice where
  | mode (s : String)
  | function (name : String)
deriving DecidableEq, Repr

/-- Translated fallback request `ChatCompletionsPayload`. -/
structure ChatCompletionsPayload where
  model : String
  messages : List Message
  temperature : Option Rat
  top_p : Option Rat
  max_tokens : Option Nat
  stream : Option Bool
  tools : Option (List Tool)
  tool_choice : Option ChatToolChoice
deriving DecidableEq, Repr

/-- The message of a non-streaming chat choice. -/
structure ChatChoiceMessage where
  content : Option String
  tool_calls : Option (List MessageToolCall)
deriving DecidableEq, Repr

/-- A non-streaming chat choice. -/
structure ChatChoice where
  index : Nat
  message : ChatChoiceMessage
deriving DecidableEq, Repr

/-- Chat usage block (`prompt_tokens` / `completion_tokens` / `total_tokens`). -/
structure ChatUsage where
  prompt_tokens : Nat
  completion_tokens : Nat
  total_tokens : Nat
deriving DecidableEq, Repr

/-- Non-streaming upstream reply `ChatCompletionResponse`. -/
structure ChatCompletionResponse where
  id : String
  created : Nat
  model : String
  choices : List ChatChoice
  usage : Option ChatUsage
deriving DecidableEq, Repr

/-! ## Responses output shapes -/

/-- Output-item union `ResponsesOutputItem`: assistant message or function call. -/
inductive ResponsesOutputItem where
  | message (id : String) (content : List ResponsesContentPart) (status : Option String)
  | functionCall (id call_id name arguments : String) (status : Option String)
deriving DecidableEq, Repr

/-- The `status` field of an output item. -/
def outputItemStatus : ResponsesOutputItem → Option String
  | .message _ _ s => s
  | .functionCall _ _ _ _ s => s

/-- Usage block `ResponsesUsage` (renamed token counts). -/
structure ResponsesUsage where
  input_tokens : Nat
  output_tokens : Nat
  total_tokens : Option Nat
deriving DecidableEq, Repr

/-- Translated non-streaming reply `ResponsesResponse`. -/
structure ResponsesResponse where
  id : String
  created_at : Nat
  model : String
  output : List ResponsesOutputItem
  usage : Option ResponsesUsage
  status : Option String
deriving DecidableEq, Repr

/-! ## Request sanitization (orphan `function_call_output` filtering),
from `handleResponses` in `routes/responses/handler.ts`. -/

/-- First pass of `handleResponses`: collect the `call_id` of every
`function_call` input item (the whole sequence, left to right). -/
def functionCallIds (input : List ResponsesInputItem) : List String :=
  input.filterMap fun item =>
    match item with
    | .functionCall cid _ _ _ => some cid
    | _ => none

/-- The orphan check of `handleResponses`: the `call_id` of every
`function_call_output` whose id has no matching `function_call` anywhere
in the sequence. -/
def orphanOutputs (input : List ResponsesInputItem) : List String :=
  input.filterMap fun item =>
    match item with
    | .functionCallOutput cid _ =>
        if (functionCallIds input).contains cid then none else some cid
    | _ => none

/-- The filter predicate of the orphan-filtering pass: keep everything except
`function_call_output` items whose `call_id` is not among `ids`. -/
def keepItem (ids : List String) : ResponsesInputItem → Bool
  | .functionCallOutput cid _ => ids.contains cid
  | _ => true

/-- The orphan-filtering pass itself (`payload.input.filter(...)`). -/
def filterOrphans (input : List ResponsesInputItem) : List ResponsesInputItem :=
  input.filter (keepItem (functionCallIds input))

/-- The sanitization step of `handleResponses`: the filter runs only when
orphans were detected. -/
def sanitizeInput (input : List ResponsesInputItem) : List ResponsesInputItem :=
  if orphanOutputs input ≠ [] then filterOrphans input else input

/-! ## Request-direction translation, from `translation.ts`. -/

/-- The loop body of `translateResponsesContentToChatContent` over a content
array: the first text part short-circuits to scalar content; image parts are
accumulated; file parts are skipped; at the end a non-empty accumulator
becomes a part list, otherwise `null`. -/
def contentLoop : List ResponsesContentPart → List ContentPart → ChatMessageContent
  | [], acc => if acc ≠ [] then .parts acc else .null
  | .input_text t :: _, _ => .str t
  | .output_text t :: _, _ => .str t
  | .input_image url d :: rest, acc => contentLoop rest (acc ++ [.image_url url d])
  | .input_file _ _ _ _ :: rest, acc => contentLoop rest acc

/-- Embedding of `translateResponsesContentToChatContent`. -/
def translateResponsesContentToChatContent : StrOrParts → ChatMessageContent
  | .str s => if s ≠ "" then .str s else .null
  | .parts ps => contentLoop ps []

/-- The `function_call_output` content reduction: a string output passes
through; a structured output is the concatenation of its `output_text` texts
(other parts contribute the empty string). -/
def functionCallOutputContent : StrOrParts → String
  | .str s => s
  | .parts ps =>
      String.join (ps.map fun p =>
        match p with
        | .output_text t => t
        | _ => "")

/-- Embedding of `translateInputItemToMessage`; `item_reference` has no analogue
and yields `none`. -/
def translateInputItemToMessage : ResponsesInputItem → Option Message
  | .systemMessage c => some ⟨"system", .str c, none, none⟩
  | .developerMessage c => some ⟨"developer", .str c, none, none⟩
  | .userMessage c =>
      some ⟨"user", translateResponsesContentToChatContent c, none, none⟩
  | .assistantMessage c _ =>
      some ⟨"assistant", translateResponsesContentToChatContent c, none, none⟩
  | .messageInput role c _ =>
      match role with
      | .user => some ⟨"user", translateResponsesContentToChatContent c, none, none⟩
      | .assistant => some ⟨"assistant", translateResponsesContentToChatContent c, none, none⟩
  | .functionCall cid name args _ =>
      some ⟨"assistant", .null, some [⟨cid, name, args⟩], none⟩
  | .functionCallOutput cid out =>
      some ⟨"tool", .str (functionCallOutputContent out), none, some cid⟩
  | .itemReference _ => none

/-- Embedding of `translateResponsesToolToChatTool`. -/
def translateResponsesToolToChatTool (tool : ResponsesTool) : Tool :=
  ⟨tool.name, tool.description, tool.parameters⟩

/-- Embedding of `translateToolChoice`. -/
def translateToolChoice : Option ResponsesToolChoice → Option ChatToolChoice
  | none => none
  | some (.mode s) => some (.mode s)
  | some (.function n) => some (.function n)

/-- Embedding of `translateResponsesToChatPayload`: a truthy `instructions`
becomes a leading system message, then each input item is translated in order. -/
def translateResponsesToChatPayload (p : ResponsesPayload) : ChatCompletionsPayload :=
  let instrMsgs : List Message :=
    if jsTruthyStr p.instructions then
      [⟨"system", .str (p.instructions.getD ""), none, none⟩]
    else []
  { model := p.model
    messages := instrMsgs ++ p.input.filterMap translateInputItemToMessage
    temperature := p.temperature
    top_p := p.top_p
    max_tokens := p.max_output_tokens
    stream := p.stream
    tools := p.tools.map (List.map translateResponsesToolToChatTool)
    tool_choice := translateToolChoice p.tool_choice }

/-! ## Response-direction translation (`translateChatResponseToResponses`). -/

/-- The output items contributed by one chat choice: one assistant message
item when the content is truthy (non-null, non-empty), then one
`function_call` item per tool call, all marked `"completed"`. -/
def choiceOutputItems (chatId : String) (choice : ChatChoice) : List ResponsesOutputItem :=
  (if jsTruthyStr choice.message.content then
    [ResponsesOutputItem.message
      ("msg_" ++ chatId ++ "_" ++ toString choice.index)
      [ResponsesContentPart.output_text (choice.message.content.getD "")]
      (some "completed")]
  else [])
  ++ (match choice.message.tool_calls with
      | some tcs =>
          if tcs.length > 0 then
            tcs.map fun tc =>
              ResponsesOutputItem.functionCall tc.id tc.id tc.name tc.arguments
                (some "completed")
          else []
      | none => [])

/-- Embedding of `translateChatResponseToResponses`. -/
def translateChatResponseToResponses (r : ChatCompletionResponse) : ResponsesResponse :=
  { id := r.id
    created_at := r.created
    model := r.model
    output := r.choices.flatMap (choiceOutputItems r.id)
    usage := r.usage.map fun u =>
      { input_tokens := u.prompt_tokens
        output_tokens := u.completion_tokens
        total_tokens := some u.total_tokens }
    status := some "completed" }

/-! ## Streaming event reducer (`translateChatChunkToResponsesEvents`).
The JS mutable stream state is threaded explicitly; the `Map<number,string>`
is an association list where an insertion shadows older entries. -/

/-- One entry of `delta.tool_calls` in a streaming chunk; `id` carries the
`id?` field, `name` and `arguments` the fields of the optional `function`
object (`none` when the chunk omits them). -/
structure DeltaToolCall where
  index : Nat
  id : Option String
  name : Option String
  arguments : Option String
deriving DecidableEq, Repr

/-- The `delta` of a streaming choice. -/
structure ChunkDelta where
  content : Option String
  role : Option String
  tool_calls : Option (List DeltaToolCall)
deriving DecidableEq, Repr

/-- A choice of a streaming chunk. -/
structure ChunkChoice where
  index : Nat
  delta : ChunkDelta
  finish_reason : Option String
deriving DecidableEq, Repr

/-- A Chat-Completions streaming chunk. -/
structure ChatChunk where
  id : String
  model : String
  created : Nat
  choices : List ChunkChoice
deriving DecidableEq, Repr

/-- Lookup in the `toolCallIds` map (`Map.get`). -/
def mapGet (m : List (Nat × String)) (k : Nat) : Option String :=
  (m.find? fun e => e.1 = k).map Prod.snd

/-- Insertion into the `toolCallIds` map (`Map.set`): the new entry shadows
any previous entry for the same key. -/
def mapSet (m : List (Nat × String)) (k : Nat) (v : String) : List (Nat × String) :=
  (k, v) :: m

/-- The mutable stream state created per fallback stream in
`handleResponses`. -/
structure StreamState where
  responseId : String
  sentCreated : Bool
  currentItemIndex : Nat
  toolCallIds : List (Nat × String)
deriving DecidableEq, Repr

/-- The fresh stream state (`responseId:"", sentCreated:false,
currentItemIndex:0, toolCallIds:new Map()`). -/
def mkFreshStreamState : StreamState :=
  ⟨"", false, 0, []⟩

/-- An outbound Responses-shaped streaming event. -/
inductive StreamEvent where
  | created (id : String) (created_at : Nat) (model : String)
  | outputTextDelta (item_id : String) (output_index : Nat) (delta : String)
  | outputItemAdded (output_index : Nat) (item_id call_id name arguments : String)
  | functionCallArgumentsDelta (item_id : String) (output_index : Nat) (delta : String)
  | completedEvent (id : String) (status : String)
deriving DecidableEq, Repr

/-- The per-tool-call-fragment body of the reducer: the event id is what the
map already holds, else the fragment's own id; a truthy fragment id is
recorded; missing both, events use the placeholder `call_<index>`. -/
def processToolCall (tc : DeltaToolCall) (st : StreamState) :
    List StreamEvent × StreamState :=
  let toolCallId := jsOr (mapGet st.toolCallIds tc.index) tc.id
  let st1 :=
    if jsTruthyStr tc.id then
      { st with toolCallIds := mapSet st.toolCallIds tc.index (tc.id.getD "") }
    else st
  let itemId :=
    if jsTruthyStr toolCallId then toolCallId.getD ""
    else "call_" ++ toString tc.index
  let addEvents :=
    if jsTruthyStr tc.name then
      [StreamEvent.outputItemAdded tc.index itemId itemId (tc.name.getD "") ""]
    else []
  let argEvents :=
    if jsTruthyStr tc.arguments then
      [StreamEvent.functionCallArgumentsDelta itemId tc.index (tc.arguments.getD "")]
    else []
  (addEvents ++ argEvents, st1)

/-- The `for (const tc of delta.tool_calls)` loop. -/
def processToolCalls : List DeltaToolCall → StreamState → List StreamEvent × StreamState
  | [], st => ([], st)
  | tc :: rest, st =>
      let r1 := processToolCall tc st
      let r2 := processToolCalls rest r1.2
      (r1.1 ++ r2.1, r2.2)

/-- The per-choice body of the reducer: truthy text delta, tool-call
fragments, then a truthy finish reason. -/
def processChoice (chunk : ChatChunk) (choice : ChunkChoice) (st : StreamState) :
    List StreamEvent × StreamState :=
  let textEvents :=
    if jsTruthyStr choice.delta.content then
      [StreamEvent.outputTextDelta
        ("msg_" ++ chunk.id ++ "_" ++ toString choice.index)
        choice.index (choice.delta.content.getD "")]
    else []
  let r1 :=
    match choice.delta.tool_calls with
    | none => (([] : List StreamEvent), st)
    | some tcs => processToolCalls tcs st
  let finEvents :=
    if jsTruthyStr choice.finish_reason then
      [StreamEvent.completedEvent chunk.id "completed"]
    else []
  (textEvents ++ r1.1 ++ finEvents, r1.2)

/-- The `for (const choice of chunk.choices)` loop. -/
def processChoices (chunk : ChatChunk) :
    List ChunkChoice → StreamState → List StreamEvent × StreamState
  | [], st => ([], st)
  | c :: rest, st =>
      let r1 := processChoice chunk c st
      let r2 := processChoices chunk rest r1.2
      (r1.1 ++ r2.1, r2.2)

/-- Embedding of `translateChatChunkToResponsesEvents`: the one-shot
`sentCreated` latch emits the `response.created` event on the first chunk, then
each choice is expanded in order. -/
def translateChatChunkToResponsesEvents (chunk : ChatChunk) (st : StreamState) :
    List StreamEvent × StreamState :=
  let r0 :=
    if st.sentCreated then (([] : List StreamEvent), st)
    else
      ([StreamEvent.created chunk.id chunk.created chunk.model],
        { st with sentCreated := true, responseId := chunk.id })
  let r1 := processChoices chunk chunk.choices r0.2
  (r0.1 ++ r1.1, r1.2)

/-- The streaming loop of `handleResponses`: each parsed chunk is run through
the reducer with the single stream state, events forwarded in order. -/
def runChunks : List ChatChunk → StreamState → List StreamEvent × StreamState
  | [], st => ([], st)
  | c :: rest, st =>
      let r1 := translateChatChunkToResponsesEvents c st
      let r2 := runChunks rest r1.2
      (r1.1 ++ r2.1, r2.2)

/-! ## The endpoint-selection and fallback control flow of
`handleResponses`. -/

/-- An error thrown by an upstream call: `HTTPError` carries a status and the
response body; anything else is a plain error. -/
inductive UpstreamError where
  | http (status : Nat) (body : String)
  | other (msg : String)
deriving DecidableEq, Repr

/-- Embedding of `shouldFallbackToChat`. -/
def shouldFallbackToChat (error : UpstreamError) (supportsChat : Bool) : Bool :=
  if !supportsChat then false
  else
    match error with
    | .http status _ => status == 400 || status == 404 || status == 422
    | .other _ => false

/-- What the primary `/responses` attempt would produce if issued. -/
inductive PrimaryAttemptResult where
  | success
  | failure (e : UpstreamError)
deriving DecidableEq, Repr

/-- The observable outcome of the endpoint-selection logic of
`handleResponses`: pass the primary reply through, forward an error, issue
the fallback Chat-Completions call with the translated payload, or answer the
local 400 "does not support any compatible endpoint" error with no upstream
call. -/
inductive HandlerOutcome where
  | primaryResponse
  | forwardedError (e : UpstreamError)
  | fallbackCall (chatPayload : ChatCompletionsPayload)
  | unsupportedModel (model : String)
deriving DecidableEq, Repr

/-- Endpoint test `supportsResponses` in `handleResponses`: unspecified endpoint
metadata counts as support. -/
def supportsResponses (endpoints : Option (List String)) : Bool :=
  endpoints.isNone || (endpoints.getD []).contains "/responses"

/-- Endpoint test `supportsChatCompletions` in `handleResponses`. -/
def supportsChatCompletions (endpoints : Option (List String)) : Bool :=
  endpoints.isNone || (endpoints.getD []).contains "/chat/completions"

/-- The normalization `handleResponses` applies before endpoint selection:
orphan filtering, then filling a missing `max_output_tokens` from the model
metadata. -/
def normalizePayload (p : ResponsesPayload) (defaultMaxTokens : Option Nat) :
    ResponsesPayload :=
  let p1 := { p with input := sanitizeInput p.input }
  if p1.max_output_tokens.isNone then
    { p1 with max_output_tokens := defaultMaxTokens }
  else p1

/-- The endpoint-selection and fallback control flow of `handleResponses`,
as a function of the (normalized) payload, the model metadata and the result
the primary attempt would have: the primary endpoint is tried only when
supported; on failure, `lastError` is set and an ineligible error is
forwarded at once; the fallback block requires both Chat-Completions support
and a recorded `lastError`, so with no primary attempt the handler falls
through to the local unsupported-model error. -/
def handleResponsesOutcome (p : ResponsesPayload) (endpoints : Option (List String))
    (defaultMaxTokens : Option Nat) (primary : PrimaryAttemptResult) :
    HandlerOutcome :=
  let payload := normalizePayload p defaultMaxTokens
  let supportsChat := supportsChatCompletions endpoints
  if supportsResponses endpoints then
    match primary with
    | .success => .primaryResponse
    | .failure e =>
        if shouldFallbackToChat e supportsChat then
          .fallbackCall (translateResponsesToChatPayload payload)
        else .forwardedError e
  else .unsupportedModel payload.model

/-! ## Concrete example inputs used by witnesses and counterexamples. -/

/-- Spec scenario payload: input `[role:user, content:"hi"]`. -/
def examplePayload : ResponsesPayload :=
  { model := "gpt-test"
    input := [.userMessage (.str "hi")]
    instructions := none
    max_output_tokens := none
    temperature := none
    top_p := none
    stream := none
    tools := none
    tool_choice := none }

/-- Spec scenario stream chunk 1: tool-call fragment carrying index 0, the
permanent id `call_1` and the function name `foo`. -/
def scenarioChunk1 : ChatChunk :=
  ⟨"id1", "m", 1, [⟨0, ⟨none, none, some [⟨0, some "call_1", some "foo", none⟩]⟩, none⟩]⟩

/-- Spec scenario stream chunk 2: an arguments fragment for index 0 with no
id of its own. -/
def scenarioChunk2 : ChatChunk :=
  ⟨"id1", "m", 1, [⟨0, ⟨none, none, some [⟨0, none, none, some "argstext"⟩]⟩, none⟩]⟩

/-- Counterexample chunk: first fragment for index 0 carries id `call_a`. -/
def overwriteChunk1 : ChatChunk :=
  ⟨"id1", "m", 1, [⟨0, ⟨none, some "assistant", some [⟨0, some "call_a", some "foo", none⟩]⟩, none⟩]⟩

/-- Counterexample chunk: a second, different id `call_b` for index 0. -/
def overwriteChunk2 : ChatChunk :=
  ⟨"id1", "m", 1, [⟨0, ⟨none, none, some [⟨0, some "call_b", none, some "x"⟩]⟩, none⟩]⟩

/-- Counterexample chunk: an id-less arguments fragment for index 0, after
both ids arrived. -/
def overwriteChunk3 : ChatChunk :=
  ⟨"id1", "m", 1, [⟨0, ⟨none, none, some [⟨0, none, none, some "y"⟩]⟩, some "tool_calls"⟩]⟩

/-! ## C1 — a model advertising only the Chat-Completions endpoint. -/

/-- C1 (code_bug evidence): for a model whose metadata advertises only
`/chat/completions`, `handleResponses` makes no upstream call at all:
`supportsResponses` is false so the primary block is skipped and `lastError`
stays null, the fallback block requires `supportsChatCompletions && lastError`
and is also skipped, and the handler answers the local 400
`does not support any compatible endpoint` error — for the spec scenario
input `[role:user, content:"hi"]` the outcome is `unsupportedModel`, not a
fallback Chat-Completions call, whatever the primary endpoint would have
returned. -/
theorem chatOnly_model_gets_unsupported_error (primary : PrimaryAttemptResult) :
    handleResponsesOutcome examplePayload (some ["/chat/completions"]) none primary
      = HandlerOutcome.unsupportedModel "gpt-test" := by
  cases primary <;> rfl

/-! ## C3 — fallback eligibility. -/

/-- Characterization of `shouldFallbackToChat`: true exactly for an
`HTTPError` with status 400, 404 or 422 when the model supports
Chat-Completions. -/
theorem shouldFallbackToChat_spec (e : UpstreamError) (sc : Bool) :
    shouldFallbackToChat e sc = true
      ↔ sc = true ∧ ∃ status body, e = UpstreamError.http status body
          ∧ (status = 400 ∨ status = 404 ∨ status = 422) := by
  cases e with
  | http status body => cases sc <;> simp [shouldFallbackToChat, or_assoc]
  | other m => cases sc <;> simp [shouldFallbackToChat]

/-- C3: after a primary `/responses` attempt (the model supports the
Responses endpoint), the fallback Chat-Completions call is issued if and only
if the failure is an upstream HTTP failure with status 400, 404 or 422 and
the model supports Chat-Completions; every other failure is forwarded to the
client verbatim, with its status and body unchanged. -/
theorem fallback_iff_eligible_failure (p : ResponsesPayload)
    (endpoints : Option (List String)) (dmt : Option Nat) (e : UpstreamError)
    (hPrim : supportsResponses endpoints = true) :
    (handleResponsesOutcome p endpoints dmt (.failure e)
        = HandlerOutcome.fallbackCall
            (translateResponsesToChatPayload (normalizePayload p dmt))
      ↔ supportsChatCompletions endpoints = true
          ∧ ∃ status body, e = UpstreamError.http status body
              ∧ (status = 400 ∨ status = 404 ∨ status = 422))
    ∧ (shouldFallbackToChat e (supportsChatCompletions endpoints) = false
        → handleResponsesOutcome p endpoints dmt (.failure e)
            = HandlerOutcome.forwardedError e) := by
  have hkey := shouldFallbackToChat_spec e (supportsChatCompletions endpoints)
  constructor
  · constructor
    · intro hout
      by_cases hf : shouldFallbackToChat e (supportsChatCompletions endpoints) = true
      · exact hkey.mp hf
      · exfalso
        rw [Bool.not_eq_true] at hf
        have hfor : handleResponsesOutcome p endpoints dmt (.failure e)
            = HandlerOutcome.forwardedError e := by
          simp [handleResponsesOutcome, hPrim, hf]
        rw [hfor] at hout
        exact HandlerOutcome.noConfusion hout
    · intro hel
      have hf := hkey.mpr hel
      simp [handleResponsesOutcome, hPrim, hf]
  · intro hf
    simp [handleResponsesOutcome, hPrim, hf]

/-- Witness for C3 at a concrete input: a 404 failure on a model with
unspecified endpoint metadata triggers the fallback call with the translated
payload. -/
theorem fallback_iff_eligible_failure_witness :
    handleResponsesOutcome examplePayload none none (.failure (.http 404 "nf"))
      = HandlerOutcome.fallbackCall
          (translateResponsesToChatPayload (normalizePayload examplePayload none)) :=
  (fallback_iff_eligible_failure examplePayload none none (.http 404 "nf") rfl).1.mpr
    ⟨rfl, 404, "nf", rfl, Or.inr (Or.inl rfl)⟩

/-! ## C8 — determinism of the streaming reducer. -/

/-- C8: the streaming translation is a pure function of the chunk sequence
and the stream state, so feeding the same ordered chunk sequence through two
independently created fresh stream states yields identical outbound event
sequences. -/
theorem stream_reducer_deterministic (chunks : List ChatChunk)
    (s1 s2 : StreamState) (h1 : s1 = mkFreshStreamState)
    (h2 : s2 = mkFreshStreamState) :
    (runChunks chunks s1).1 = (runChunks chunks s2).1 := by
  subst h1; subst h2; rfl

/-- Witness for C8 on the two scenario chunks. -/
theorem stream_reducer_deterministic_witness :
    (runChunks [scenarioChunk1, scenarioChunk2] mkFreshStreamState).1
      = (runChunks [scenarioChunk1, scenarioChunk2] mkFreshStreamState).1 :=
  stream_reducer_deterministic [scenarioChunk1, scenarioChunk2]
    mkFreshStreamState mkFreshStreamState rfl rfl

/-! ## C5 — the `response.created` event fires exactly once per stream. -/

/-- Number of `response.created` events in an event list. -/
def countCreated : List StreamEvent → Nat
  | [] => 0
  | .created _ _ _ :: rest => countCreated rest + 1
  | _ :: rest => countCreated rest

theorem countCreated_append (a b : List StreamEvent) :
    countCreated (a ++ b) = countCreated a + countCreated b := by
  induction a with
  | nil => simp [countCreated]
  | cons ev rest ih => cases ev <;> (simp [countCreated, ih]; try omega)

theorem countCreated_processToolCall (tc : DeltaToolCall) (st : StreamState) :
    countCreated (processToolCall tc st).1 = 0 := by
  unfold processToolCall
  dsimp only
  repeat' split
  all_goals rfl

theorem countCreated_processToolCalls (tcs : List DeltaToolCall) (st : StreamState) :
    countCreated (processToolCalls tcs st).1 = 0 := by
  induction tcs generalizing st with
  | nil => rfl
  | cons tc rest ih =>
      simp [processToolCalls, countCreated_append, countCreated_processToolCall, ih]

theorem countCreated_processChoice (chunk : ChatChunk) (choice : ChunkChoice)
    (st : StreamState) : countCreated (processChoice chunk choice st).1 = 0 := by
  unfold processChoice
  dsimp only
  repeat' split
  all_goals simp [countCreated_append, countCreated_processToolCalls, countCreated]

theorem countCreated_processChoices (chunk : ChatChunk) (cs : List ChunkChoice)
    (st : StreamState) : countCreated (processChoices chunk cs st).1 = 0 := by
  induction cs generalizing st with
  | nil => rfl
  | cons c rest ih =>
      simp [processChoices, countCreated_append, countCreated_processChoice, ih]

theorem sentCreated_processToolCall (tc : DeltaToolCall) (st : StreamState) :
    (processToolCall tc st).2.sentCreated = st.sentCreated := by
  unfold processToolCall
  dsimp only
  repeat' split
  all_goals rfl

theorem sentCreated_processToolCalls (tcs : List DeltaToolCall) (st : StreamState) :
    (processToolCalls tcs st).2.sentCreated = st.sentCreated := by
  induction tcs generalizing st with
  | nil => rfl
  | cons tc rest ih =>
      simp [processToolCalls, ih, sentCreated_processToolCall]

theorem sentCreated_processChoice (chunk : ChatChunk) (choice : ChunkChoice)
    (st : StreamState) : (processChoice chunk choice st).2.sentCreated = st.sentCreated := by
  unfold processChoice
  dsimp only
  repeat' split
  all_goals simp [sentCreated_processToolCalls]

theorem sentCreated_processChoices (chunk : ChatChunk) (cs : List ChunkChoice)
    (st : StreamState) : (processChoices chunk cs st).2.sentCreated = st.sentCreated := by
  induction cs generalizing st with
  | nil => rfl
  | cons c rest ih =>
      simp [processChoices, ih, sentCreated_processChoice]

/-- The latch holds after any chunk is processed. -/
theorem sentCreated_translateChunk (chunk : ChatChunk) (st : StreamState) :
    (translateChatChunkToResponsesEvents chunk st).2.sentCreated = true := by
  unfold translateChatChunkToResponsesEvents
  dsimp only
  by_cases h : st.sentCreated <;> simp [h, sentCreated_processChoices]

/-- With the latch set, a chunk contributes no `response.created` event. -/
theorem countCreated_translateChunk_latched (chunk : ChatChunk) (st : StreamState)
    (h : st.sentCreated = true) :
    countCreated (translateChatChunkToResponsesEvents chunk st).1 = 0 := by
  unfold translateChatChunkToResponsesEvents
  dsimp only
  simp [h, countCreated_append, countCreated_processChoices]

theorem countCreated_runChunks_latched (chunks : List ChatChunk) (st : StreamState)
    (h : st.sentCreated = true) :
    countCreated (runChunks chunks st).1 = 0 := by
  induction chunks generalizing st with
  | nil => rfl
  | cons c rest ih =>
      simp [runChunks, countCreated_append, countCreated_translateChunk_latched c st h,
        ih _ (sentCreated_translateChunk c st)]

/-- C5: feeding any non-empty chunk sequence through one fresh stream state
emits exactly one `response.created` event; it is the very first event, it is
emitted by the first chunk, and it carries that chunk's upstream id, created
timestamp and model. -/
theorem created_event_exactly_once (c : ChatChunk) (rest : List ChatChunk) :
    countCreated (runChunks (c :: rest) mkFreshStreamState).1 = 1
    ∧ ∃ tail, (runChunks (c :: rest) mkFreshStreamState).1
        = StreamEvent.created c.id c.created c.model :: tail := by
  have hrun : (runChunks (c :: rest) mkFreshStreamState).1
      = (translateChatChunkToResponsesEvents c mkFreshStreamState).1
        ++ (runChunks rest (translateChatChunkToResponsesEvents c mkFreshStreamState).2).1 := rfl
  have hstep : (translateChatChunkToResponsesEvents c mkFreshStreamState).1
      = StreamEvent.created c.id c.created c.model
        :: (processChoices c c.choices
              { mkFreshStreamState with sentCreated := true, responseId := c.id }).1 := rfl
  constructor
  · rw [hrun, countCreated_append, hstep,
      countCreated_runChunks_latched rest _ (sentCreated_translateChunk c mkFreshStreamState)]
    show countCreated (processChoices c c.choices _).1 + 1 + 0 = 1
    rw [countCreated_processChoices]
  · exact ⟨_, by rw [hrun, hstep]; rfl⟩

/-! ## C9 — the fallback path always reports status `"completed"`. -/

/-- Check that an event, when it is a `response.completed` event, carries
status `"completed"`. -/
def completedStatusOk : StreamEvent → Bool
  | .completedEvent _ s => s == "completed"
  | _ => true

theorem allOk_processToolCall (tc : DeltaToolCall) (st : StreamState) :
    (processToolCall tc st).1.all completedStatusOk = true := by
  unfold processToolCall
  dsimp only
  repeat' split
  all_goals rfl

theorem allOk_processToolCalls (tcs : List DeltaToolCall) (st : StreamState) :
    (processToolCalls tcs st).1.all completedStatusOk = true := by
  induction tcs generalizing st with
  | nil => rfl
  | cons tc rest ih =>
      simp [processToolCalls, List.all_append, allOk_processToolCall, ih]

theorem allOk_processChoice (chunk : ChatChunk) (choice : ChunkChoice)
    (st : StreamState) :
    (processChoice chunk choice st).1.all completedStatusOk = true := by
  unfold processChoice
  dsimp only
  repeat' split
  all_goals simp [List.all_append, allOk_processToolCalls, completedStatusOk]

theorem allOk_processChoices (chunk : ChatChunk) (cs : List ChunkChoice)
    (st : StreamState) :
    (processChoices chunk cs st).1.all completedStatusOk = true := by
  induction cs generalizing st with
  | nil => rfl
  | cons c rest ih =>
      simp [processChoices, List.all_append, allOk_processChoice, ih]

theorem allOk_translateChunk (chunk : ChatChunk) (st : StreamState) :
    (translateChatChunkToResponsesEvents chunk st).1.all completedStatusOk = true := by
  unfold translateChatChunkToResponsesEvents
  dsimp only
  by_cases h : st.sentCreated <;>
    simp [h, List.all_append, allOk_processChoices, completedStatusOk]

/-- Status of every item produced for one chat choice. -/
theorem status_choiceOutputItems (cid : String) (ch : ChatChoice) :
    ∀ item ∈ choiceOutputItems cid ch, outputItemStatus item = some "completed" := by
  intro item h
  simp only [choiceOutputItems, List.mem_append] at h
  rcases h with h | h
  · split at h
    · simp only [List.mem_singleton] at h
      subst h; rfl
    · simp at h
  · split at h
    · split at h
      · obtain ⟨tc, -, rfl⟩ := List.mem_map.mp h
        rfl
      · simp at h
    · simp at h

/-- C9: on the fallback path the reported status is unconditionally
`"completed"`: the non-streaming translation returns top-level status
`"completed"` and marks every output item `"completed"` whatever the
upstream finish reason was, and every `response.completed` event produced by
the streaming translation carries status `"completed"` — the translation
never produces `"incomplete"` or `"failed"`. -/
theorem fallback_status_always_completed (r : ChatCompletionResponse)
    (chunk : ChatChunk) (st : StreamState) :
    (translateChatResponseToResponses r).status = some "completed"
    ∧ (∀ item ∈ (translateChatResponseToResponses r).output,
        outputItemStatus item = some "completed")
    ∧ (∀ ev ∈ (translateChatChunkToResponsesEvents chunk st).1,
        ∀ i s, ev = StreamEvent.completedEvent i s → s = "completed") := by
  refine ⟨rfl, ?_, ?_⟩
  · intro item h
    simp only [translateChatResponseToResponses, List.mem_flatMap] at h
    obtain ⟨ch, -, hch⟩ := h
    exact status_choiceOutputItems r.id ch item hch
  · intro ev hev i s hevEq
    have hall := allOk_translateChunk chunk st
    have hok := (List.all_eq_true.mp hall) ev hev
    subst hevEq
    simpa [completedStatusOk] using hok

/-! ## C7 — content-part reduction. -/

/-- Text of the first text part (`input_text` or `output_text`) of a content
array, if any. -/
def firstTextPart : List ResponsesContentPart → Option String
  | [] => none
  | .input_text t :: _ => some t
  | .output_text t :: _ => some t
  | .input_image _ _ :: rest => firstTextPart rest
  | .input_file _ _ _ _ :: rest => firstTextPart rest

/-- Projection of an `input_image` part to a chat image-url part; other
parts project to nothing. -/
def imagePart? : ResponsesContentPart → Option ContentPart
  | .input_image url d => some (ContentPart.image_url url d)
  | _ => none

/-- With a text part present, the loop short-circuits to that text whatever
was already accumulated. -/
theorem contentLoop_text (ps : List ResponsesContentPart) (acc : List ContentPart)
    (t : String) (h : firstTextPart ps = some t) :
    contentLoop ps acc = ChatMessageContent.str t := by
  induction ps generalizing acc with
  | nil => simp [firstTextPart] at h
  | cons p rest ih =>
      cases p with
      | input_text s =>
          simp only [firstTextPart, Option.some.injEq] at h
          subst h; rfl
      | output_text s =>
          simp only [firstTextPart, Option.some.injEq] at h
          subst h; rfl
      | input_image url d =>
          simp only [firstTextPart] at h
          simp only [contentLoop]
          exact ih _ h
      | input_file a b c d =>
          simp only [firstTextPart] at h
          simp only [contentLoop]
          exact ih _ h

/-- Without a text part, the loop accumulates exactly the projected image
parts, in order, and returns `null` when none were produced. -/
theorem contentLoop_noText (ps : List ResponsesContentPart) (acc : List ContentPart)
    (h : firstTextPart ps = none) :
    contentLoop ps acc
      = (if acc ++ ps.filterMap imagePart? ≠ [] then
          ChatMessageContent.parts (acc ++ ps.filterMap imagePart?)
        else ChatMessageContent.null) := by
  induction ps generalizing acc with
  | nil => simp [contentLoop]
  | cons p rest ih =>
      cases p with
      | input_text t => simp [firstTextPart] at h
      | output_text t => simp [firstTextPart] at h
      | input_image url d =>
          simp only [firstTextPart] at h
          simp only [contentLoop, List.filterMap_cons, imagePart?]
          rw [ih _ h]
          simp
      | input_file a b c d =>
          simp only [firstTextPart] at h
          simp only [contentLoop, List.filterMap_cons, imagePart?]
          exact ih _ h

/-- C7: for a content array, the first text part — if any — becomes the
scalar content and every other part is discarded; with no text part, the
image parts are projected in order to an image-url list (file parts are
dropped); an empty string, an empty array or an array producing no parts
yields the explicit `null` marker, which is distinct from the empty
string. -/
theorem content_part_reduction (ps : List ResponsesContentPart) :
    (∀ t, firstTextPart ps = some t →
        translateResponsesContentToChatContent (.parts ps) = ChatMessageContent.str t)
    ∧ (firstTextPart ps = none →
        translateResponsesContentToChatContent (.parts ps)
          = (if ps.filterMap imagePart? ≠ [] then
              ChatMessageContent.parts (ps.filterMap imagePart?)
            else ChatMessageContent.null))
    ∧ translateResponsesContentToChatContent (.str "") = ChatMessageContent.null
    ∧ (∀ s, ChatMessageContent.null ≠ ChatMessageContent.str s) := by
  refine ⟨?_, ?_, rfl, fun s h => ChatMessageContent.noConfusion h⟩
  · intro t h
    exact contentLoop_text ps [] t h
  · intro h
    simpa using contentLoop_noText ps [] h

/-! ## C4 — shape of the non-streaming response translation. -/

/-- Items of one choice, with the `tool_calls && tool_calls.length > 0` guard
folded away (an empty list maps to no items either way). -/
theorem choiceOutputItems_eq (cid : String) (ch : ChatChoice) :
    choiceOutputItems cid ch
      = (if jsTruthyStr ch.message.content then
          [ResponsesOutputItem.message ("msg_" ++ cid ++ "_" ++ toString ch.index)
            [ResponsesContentPart.output_text (ch.message.content.getD "")]
            (some "completed")]
        else [])
        ++ (ch.message.tool_calls.getD []).map (fun tc =>
            ResponsesOutputItem.functionCall tc.id tc.id tc.name tc.arguments
              (some "completed")) := by
  unfold choiceOutputItems
  congr 1
  cases h : ch.message.tool_calls with
  | none => rfl
  | some tcs => cases tcs <;> simp

/-- C4: per upstream choice the translation produces at most one assistant
message output item — present exactly when the choice's message content is
truthy (non-null, non-empty) — followed by exactly one `function_call` output
item per tool call of that choice, in order; every produced item is marked
`"completed"`, and the usage block is renamed field by field
(`prompt_tokens` to `input_tokens`, `completion_tokens` to `output_tokens`,
`total_tokens` kept). -/
theorem chat_response_translation_shape (r : ChatCompletionResponse) :
    (translateChatResponseToResponses r).output
      = r.choices.flatMap (fun ch =>
          (if jsTruthyStr ch.message.content then
            [ResponsesOutputItem.message ("msg_" ++ r.id ++ "_" ++ toString ch.index)
              [ResponsesContentPart.output_text (ch.message.content.getD "")]
              (some "completed")]
          else [])
          ++ (ch.message.tool_calls.getD []).map (fun tc =>
              ResponsesOutputItem.functionCall tc.id tc.id tc.name tc.arguments
                (some "completed")))
    ∧ (∀ item ∈ (translateChatResponseToResponses r).output,
        outputItemStatus item = some "completed")
    ∧ (translateChatResponseToResponses r).usage
        = r.usage.map (fun u =>
            { input_tokens := u.prompt_tokens
              output_tokens := u.completion_tokens
              total_tokens := some u.total_tokens }) := by
  refine ⟨?_, ?_, rfl⟩
  · show r.choices.flatMap (choiceOutputItems r.id) = _
    rw [show choiceOutputItems r.id = _ from funext (choiceOutputItems_eq r.id)]
  · intro item h
    simp only [translateChatResponseToResponses, List.mem_flatMap] at h
    obtain ⟨ch, -, hch⟩ := h
    exact status_choiceOutputItems r.id ch item hch

/-! ## C2 and C10 — properties of the orphan-filtering pass. -/

/-- Test whether an item is a `function_call` with the given `call_id`. -/
def isFunctionCallWithId (cid : String) : ResponsesInputItem → Bool
  | .functionCall c _ _ _ => c == cid
  | _ => false

/-- Test whether an item is a `function_call_output`. -/
def isFunctionCallOutput : ResponsesInputItem → Bool
  | .functionCallOutput _ _ => true
  | _ => false

/-- Check the claim's ordering property: every `function_call_output` has a
matching `function_call` strictly earlier in the sequence (`seen` carries the
`call_id` of every `function_call` already passed). -/
def survivorsOrderedAux (seen : List String) : List ResponsesInputItem → Bool
  | [] => true
  | item :: rest =>
      (match item with
        | .functionCallOutput cid _ => seen.contains cid
        | _ => true)
      && survivorsOrderedAux
          (match item with
            | .functionCall cid _ _ _ => cid :: seen
            | _ => seen) rest

/-- Check that every `function_call_output` of the sequence has an earlier
matching `function_call`. -/
def survivorsOrdered (l : List ResponsesInputItem) : Bool :=
  survivorsOrderedAux [] l

/-- Sanitization always equals the filtering pass: when no orphans are
detected the filter would keep everything anyway. -/
theorem sanitizeInput_eq_filterOrphans (l : List ResponsesInputItem) :
    sanitizeInput l = filterOrphans l := by
  unfold sanitizeInput
  split
  · rfl
  · next h =>
      rw [not_not] at h
      unfold filterOrphans
      symm
      apply List.filter_eq_self.mpr
      intro a ha
      have hfa := List.filterMap_eq_nil_iff.mp h a ha
      cases a with
      | functionCallOutput cid out =>
          unfold keepItem
          by_cases hc : (functionCallIds l).contains cid = true
          · exact hc
          · dsimp only at hfa
            rw [if_neg hc] at hfa
            exact Option.noConfusion hfa
      | systemMessage c => rfl
      | developerMessage c => rfl
      | userMessage c => rfl
      | assistantMessage c oid => rfl
      | messageInput role c oid => rfl
      | functionCall cid nm args oid => rfl
      | itemReference oid => rfl

/-- Membership in the collected `function_call` ids is existence of a
matching `function_call` item. -/
theorem mem_functionCallIds (cid : String) (l : List ResponsesInputItem) :
    cid ∈ functionCallIds l ↔ ∃ item ∈ l, isFunctionCallWithId cid item = true := by
  unfold functionCallIds
  rw [List.mem_filterMap]
  constructor
  · rintro ⟨a, ha, hfa⟩
    refine ⟨a, ha, ?_⟩
    cases a <;> simp_all [isFunctionCallWithId]
  · rintro ⟨a, ha, hfa⟩
    refine ⟨a, ha, ?_⟩
    cases a <;> simp_all [isFunctionCallWithId]

/-- Counterexample input for C2: a `function_call_output` precedes its
matching `function_call`. -/
def outOfOrderInput : List ResponsesInputItem :=
  [.functionCallOutput "a" (.str "out"), .functionCall "a" "f" "x=1" none]

/-- Counterexample for C2 as stated: the ids are collected over the whole
sequence before filtering, so a `function_call_output` that precedes its
matching `function_call` survives sanitization even though no matching
`function_call` occurs earlier in the result. -/
theorem orphan_filter_earlier_counterexample :
    sanitizeInput outOfOrderInput = outOfOrderInput
    ∧ survivorsOrdered (sanitizeInput outOfOrderInput) = false := by
  exact ⟨rfl, rfl⟩

/-- C2 (amended): after sanitization every surviving `function_call_output`
has a matching `function_call` somewhere in the result (not necessarily
earlier), the result is a sublist of the input (relative order of survivors
is preserved), and items other than `function_call_output` are never
removed. -/
theorem orphan_filter_match_anywhere (input : List ResponsesInputItem) :
    (∀ cid out, ResponsesInputItem.functionCallOutput cid out ∈ sanitizeInput input →
        ∃ other ∈ sanitizeInput input, isFunctionCallWithId cid other = true)
    ∧ (sanitizeInput input).Sublist input
    ∧ (∀ item ∈ input, isFunctionCallOutput item = false → item ∈ sanitizeInput input) := by
  refine ⟨?_, ?_, ?_⟩
  · intro cid out hmem
    rw [sanitizeInput_eq_filterOrphans, filterOrphans] at hmem
    obtain ⟨hin, hkeep⟩ := List.mem_filter.mp hmem
    have hcid : cid ∈ functionCallIds input := by
      unfold keepItem at hkeep
      simpa using hkeep
    obtain ⟨item, hitem, hfc⟩ := (mem_functionCallIds cid input).mp hcid
    refine ⟨item, ?_, hfc⟩
    rw [sanitizeInput_eq_filterOrphans, filterOrphans]
    refine List.mem_filter.mpr ⟨hitem, ?_⟩
    cases item <;> simp_all [keepItem, isFunctionCallWithId]
  · rw [sanitizeInput_eq_filterOrphans, filterOrphans]
    exact List.filter_sublist input
  · intro item hitem hnot
    rw [sanitizeInput_eq_filterOrphans, filterOrphans]
    refine List.mem_filter.mpr ⟨hitem, ?_⟩
    cases item <;> simp_all [keepItem, isFunctionCallOutput]

/-- Collected `function_call` ids are untouched by any run of the keep
filter: `function_call` items always pass it. -/
theorem functionCallIds_cons (a : ResponsesInputItem) (l : List ResponsesInputItem) :
    functionCallIds (a :: l)
      = (match a with
          | .functionCall cid _ _ _ => cid :: functionCallIds l
          | _ => functionCallIds l) := by
  cases a <;> rfl

theorem functionCallIds_filter_keep (ids : List String) (l : List ResponsesInputItem) :
    functionCallIds (l.filter (keepItem ids)) = functionCallIds l := by
  induction l with
  | nil => rfl
  | cons a rest ih =>
      rw [List.filter_cons]
      by_cases hc : keepItem ids a = true
      · rw [if_pos hc, functionCallIds_cons, functionCallIds_cons]
        cases a <;> simp [ih]
      · rw [if_neg hc, functionCallIds_cons]
        cases a with
        | functionCallOutput cid out => exact ih
        | systemMessage c => simp [keepItem] at hc
        | developerMessage c => simp [keepItem] at hc
        | userMessage c => simp [keepItem] at hc
        | assistantMessage c oid => simp [keepItem] at hc
        | messageInput role c oid => simp [keepItem] at hc
        | functionCall c nm args oid => simp [keepItem] at hc
        | itemReference oid => simp [keepItem] at hc

/-- Filtering never removes a `function_call`, so the valid-id set is stable
under the pass. -/
theorem functionCallIds_filterOrphans (l : List ResponsesInputItem) :
    functionCallIds (filterOrphans l) = functionCallIds l :=
  functionCallIds_filter_keep (functionCallIds l) l

/-- The filtering pass is idempotent. -/
theorem filterOrphans_idem (l : List ResponsesInputItem) :
    filterOrphans (filterOrphans l) = filterOrphans l := by
  conv_lhs => rw [filterOrphans]
  rw [functionCallIds_filterOrphans]
  rw [show filterOrphans l = l.filter (keepItem (functionCallIds l)) from rfl,
    List.filter_filter]
  simp

/-- C10: the valid call_id set is unchanged by sanitization, sanitizing an
already-sanitized sequence removes nothing, and an input with no orphan
`function_call_output` items passes through entirely unchanged. -/
theorem sanitize_idempotent (input : List ResponsesInputItem) :
    functionCallIds (sanitizeInput input) = functionCallIds input
    ∧ sanitizeInput (sanitizeInput input) = sanitizeInput input
    ∧ (orphanOutputs input = [] → sanitizeInput input = input) := by
  refine ⟨?_, ?_, ?_⟩
  · rw [sanitizeInput_eq_filterOrphans, functionCallIds_filterOrphans]
  · rw [sanitizeInput_eq_filterOrphans, sanitizeInput_eq_filterOrphans,
      filterOrphans_idem]
  · intro h
    unfold sanitizeInput
    simp [h]

/-! ## C6 — consistency of tool-call ids across streamed fragments. -/

/-- Item id carried by a tool-call event (`response.output_item.added` or
`response.function_call_arguments.delta`) for the given tool-call index;
`none` for events of other kinds or other indexes. -/
def toolEventId? (i : Nat) : StreamEvent → Option String
  | .outputItemAdded idx itemId _ _ _ => if idx = i then some itemId else none
  | .functionCallArgumentsDelta itemId idx _ => if idx = i then some itemId else none
  | _ => none

/-- Invariant on the stream state: the `toolCallIds` map holds nothing for
index `i`, or exactly `cid`. -/
def idInv (i : Nat) (cid : String) (st : StreamState) : Prop :=
  mapGet st.toolCallIds i = none ∨ mapGet st.toolCallIds i = some cid

/-- Lookup after insertion. -/
theorem mapGet_mapSet (m : List (Nat × String)) (k k2 : Nat) (v : String) :
    mapGet (mapSet m k v) k2 = if k = k2 then some v else mapGet m k2 := by
  by_cases h : k = k2
  · subst h
    simp [mapGet, mapSet, List.find?]
  · simp [mapGet, mapSet, List.find?, h]

/-- Event id a fragment uses: the remembered id or the fragment's own id when
truthy, else the placeholder. -/
def ptcItemId (tc : DeltaToolCall) (st : StreamState) : String :=
  if jsTruthyStr (jsOr (mapGet st.toolCallIds tc.index) tc.id) then
    (jsOr (mapGet st.toolCallIds tc.index) tc.id).getD ""
  else "call_" ++ toString tc.index

/-- Every event a fragment emits is one of the two tool-call events at the
fragment's index with `ptcItemId` as its item id. -/
theorem processToolCall_events (tc : DeltaToolCall) (st : StreamState) :
    ∀ ev ∈ (processToolCall tc st).1,
      ev = StreamEvent.outputItemAdded tc.index (ptcItemId tc st) (ptcItemId tc st)
            (tc.name.getD "") ""
      ∨ ev = StreamEvent.functionCallArgumentsDelta (ptcItemId tc st) tc.index
            (tc.arguments.getD "") := by
  intro ev hev
  unfold processToolCall at hev
  dsimp only at hev
  rw [List.mem_append] at hev
  rcases hev with h | h
  · split at h
    · rw [List.mem_singleton] at h
      exact Or.inl (by rw [h]; rfl)
    · simp at h
  · split at h
    · rw [List.mem_singleton] at h
      exact Or.inr (by rw [h]; rfl)
    · simp at h

/-- State after one fragment. -/
theorem processToolCall_state (tc : DeltaToolCall) (st : StreamState) :
    (processToolCall tc st).2
      = (if jsTruthyStr tc.id then
          { st with toolCallIds := mapSet st.toolCallIds tc.index (tc.id.getD "") }
        else st) := rfl

/-- With a consistent map entry and a fragment that can only carry `cid`, a
truthy resolved id resolves to `cid`. -/
theorem jsOr_getD_consistent (a b : Option String) (cid : String)
    (ha : a = none ∨ a = some cid) (hb : jsTruthyStr b = true → b = some cid)
    (ht : jsTruthyStr (jsOr a b) = true) :
    (jsOr a b).getD "" = cid := by
  unfold jsOr at ht ⊢
  by_cases hta : jsTruthyStr a = true
  · rw [if_pos hta]
    rcases ha with rfl | rfl
    · simp [jsTruthyStr] at hta
    · rfl
  · rw [if_neg hta] at ht ⊢
    rw [hb ht]
    rfl

/-- At the claimed index, a fragment's item id is the single permanent id or
the placeholder. -/
theorem ptcItemId_consistent (i : Nat) (cid : String) (tc : DeltaToolCall)
    (st : StreamState) (hst : idInv i cid st)
    (htc : jsTruthyStr tc.id = true → tc.id = some cid)
    (hidx : tc.index = i) :
    ptcItemId tc st = cid ∨ ptcItemId tc st = "call_" ++ toString i := by
  unfold ptcItemId
  unfold idInv at hst
  subst hidx
  by_cases ht : jsTruthyStr (jsOr (mapGet st.toolCallIds tc.index) tc.id) = true
  · rw [if_pos ht]
    exact Or.inl (jsOr_getD_consistent _ _ cid hst htc ht)
  · rw [if_neg ht]
    exact Or.inr rfl

/-- Ids of the events of one fragment are consistent. -/
theorem processToolCall_event_ids (i : Nat) (cid : String) (tc : DeltaToolCall)
    (st : StreamState) (hst : idInv i cid st)
    (htc : tc.index = i → jsTruthyStr tc.id = true → tc.id = some cid) :
    ∀ ev ∈ (processToolCall tc st).1, ∀ s, toolEventId? i ev = some s →
      s = cid ∨ s = "call_" ++ toString i := by
  intro ev hev s hs
  rcases processToolCall_events tc st ev hev with rfl | rfl
  · simp only [toolEventId?] at hs
    by_cases hidx : tc.index = i
    · rw [if_pos hidx] at hs
      obtain rfl := (Option.some.injEq _ _).mp hs
      exact ptcItemId_consistent i cid tc st hst (htc hidx) hidx
    · rw [if_neg hidx] at hs
      exact Option.noConfusion hs
  · simp only [toolEventId?] at hs
    by_cases hidx : tc.index = i
    · rw [if_pos hidx] at hs
      obtain rfl := (Option.some.injEq _ _).mp hs
      exact ptcItemId_consistent i cid tc st hst (htc hidx) hidx
    · rw [if_neg hidx] at hs
      exact Option.noConfusion hs

/-- The invariant is preserved by one fragment. -/
theorem processToolCall_inv (i : Nat) (cid : String) (tc : DeltaToolCall)
    (st : StreamState) (hst : idInv i cid st)
    (htc : tc.index = i → jsTruthyStr tc.id = true → tc.id = some cid) :
    idInv i cid (processToolCall tc st).2 := by
  rw [processToolCall_state]
  by_cases hid : jsTruthyStr tc.id = true
  · rw [if_pos hid]
    unfold idInv
    dsimp only
    rw [mapGet_mapSet]
    by_cases hidx : tc.index = i
    · rw [if_pos hidx]
      right
      rw [htc hidx hid]
      rfl
    · rw [if_neg hidx]
      exact hst
  · rw [if_neg hid]
    exact hst

/-- Consistency through the fragment loop. -/
theorem processToolCalls_consistent (i : Nat) (cid : String)
    (tcs : List DeltaToolCall) (st : StreamState) (hst : idInv i cid st)
    (htcs : ∀ tc ∈ tcs, tc.index = i → jsTruthyStr tc.id = true → tc.id = some cid) :
    (∀ ev ∈ (processToolCalls tcs st).1, ∀ s, toolEventId? i ev = some s →
        s = cid ∨ s = "call_" ++ toString i)
    ∧ idInv i cid (processToolCalls tcs st).2 := by
  induction tcs generalizing st with
  | nil => exact ⟨fun ev hev => absurd hev (List.not_mem_nil ev), hst⟩
  | cons tc rest ih =>
      have h1 := processToolCall_event_ids i cid tc st hst (htcs tc (by simp))
      have h2 := processToolCall_inv i cid tc st hst (htcs tc (by simp))
      have ihr := ih (processToolCall tc st).2 h2
        (fun tc2 h2m => htcs tc2 (by simp [h2m]))
      constructor
      · intro ev hev
        rw [show (processToolCalls (tc :: rest) st).1
            = (processToolCall tc st).1
              ++ (processToolCalls rest (processToolCall tc st).2).1 from rfl,
          List.mem_append] at hev
        rcases hev with h | h
        · exact h1 ev h
        · exact ihr.1 ev h
      · exact ihr.2

/-- Events of one streamed choice in sequential form. -/
theorem processChoice_events (chunk : ChatChunk) (choice : ChunkChoice)
    (st : StreamState) :
    (processChoice chunk choice st).1
      = (if jsTruthyStr choice.delta.content then
          [StreamEvent.outputTextDelta ("msg_" ++ chunk.id ++ "_" ++ toString choice.index)
            choice.index (choice.delta.content.getD "")]
        else [])
        ++ (match choice.delta.tool_calls with
            | none => []
            | some tcs => (processToolCalls tcs st).1)
        ++ (if jsTruthyStr choice.finish_reason then
            [StreamEvent.completedEvent chunk.id "completed"]
          else []) := by
  unfold processChoice
  dsimp only
  cases choice.delta.tool_calls <;> rfl

/-- State after one streamed choice. -/
theorem processChoice_state (chunk : ChatChunk) (choice : ChunkChoice)
    (st : StreamState) :
    (processChoice chunk choice st).2
      = (match choice.delta.tool_calls with
          | none => st
          | some tcs => (processToolCalls tcs st).2) := by
  unfold processChoice
  dsimp only
  cases choice.delta.tool_calls <;> rfl

/-- Consistency through one streamed choice. -/
theorem processChoice_consistent (i : Nat) (cid : String) (chunk : ChatChunk)
    (choice : ChunkChoice) (st : StreamState) (hst : idInv i cid st)
    (hch : ∀ tc ∈ choice.delta.tool_calls.getD [],
        tc.index = i → jsTruthyStr tc.id = true → tc.id = some cid) :
    (∀ ev ∈ (processChoice chunk choice st).1, ∀ s, toolEventId? i ev = some s →
        s = cid ∨ s = "call_" ++ toString i)
    ∧ idInv i cid (processChoice chunk choice st).2 := by
  constructor
  · intro ev hev s hs
    rw [processChoice_events, List.mem_append, List.mem_append] at hev
    rcases hev with (h | h) | h
    · split at h
      · rw [List.mem_singleton] at h
        subst h
        simp [toolEventId?] at hs
      · simp at h
    · cases hm : choice.delta.tool_calls with
      | none => rw [hm] at h; simp at h
      | some tcs =>
          rw [hm] at h
          exact (processToolCalls_consistent i cid tcs st hst
            (by simpa [hm] using hch)).1 ev h s hs
    · split at h
      · rw [List.mem_singleton] at h
        subst h
        simp [toolEventId?] at hs
      · simp at h
  · rw [processChoice_state]
    cases hm : choice.delta.tool_calls with
    | none => exact hst
    | some tcs =>
        exact (processToolCalls_consistent i cid tcs st hst
          (by simpa [hm] using hch)).2

/-- Consistency through the choice loop. -/
theorem processChoices_consistent (i : Nat) (cid : String) (chunk : ChatChunk)
    (cs : List ChunkChoice) (st : StreamState) (hst : idInv i cid st)
    (hcs : ∀ c ∈ cs, ∀ tc ∈ c.delta.tool_calls.getD [],
        tc.index = i → jsTruthyStr tc.id = true → tc.id = some cid) :
    (∀ ev ∈ (processChoices chunk cs st).1, ∀ s, toolEventId? i ev = some s →
        s = cid ∨ s = "call_" ++ toString i)
    ∧ idInv i cid (processChoices chunk cs st).2 := by
  induction cs generalizing st with
  | nil => exact ⟨fun ev hev => absurd hev (List.not_mem_nil ev), hst⟩
  | cons c rest ih =>
      have h1 := processChoice_consistent i cid chunk c st hst (hcs c (by simp))
      have ihr := ih (processChoice chunk c st).2 h1.2
        (fun c2 h2m => hcs c2 (by simp [h2m]))
      constructor
      · intro ev hev
        rw [show (processChoices chunk (c :: rest) st).1
            = (processChoice chunk c st).1
              ++ (processChoices chunk rest (processChoice chunk c st).2).1 from rfl,
          List.mem_append] at hev
        rcases hev with h | h
        · exact h1.1 ev h
        · exact ihr.1 ev h
      · exact ihr.2

/-- Events of one chunk in sequential form. -/
theorem translateChunk_events (chunk : ChatChunk) (st : StreamState) :
    (translateChatChunkToResponsesEvents chunk st).1
      = (if st.sentCreated then []
          else [StreamEvent.created chunk.id chunk.created chunk.model])
        ++ (processChoices chunk chunk.choices
            (if st.sentCreated then st
              else { st with sentCreated := true, responseId := chunk.id })).1 := by
  unfold translateChatChunkToResponsesEvents
  dsimp only
  by_cases h : st.sentCreated = true <;> simp [h]

/-- State after one chunk. -/
theorem translateChunk_state (chunk : ChatChunk) (st : StreamState) :
    (translateChatChunkToResponsesEvents chunk st).2
      = (processChoices chunk chunk.choices
          (if st.sentCreated then st
            else { st with sentCreated := true, responseId := chunk.id })).2 := by
  unfold translateChatChunkToResponsesEvents
  dsimp only
  by_cases h : st.sentCreated = true <;> simp [h]

/-- Consistency through one chunk. -/
theorem translateChunk_consistent (i : Nat) (cid : String) (chunk : ChatChunk)
    (st : StreamState) (hst : idInv i cid st)
    (hck : ∀ c ∈ chunk.choices, ∀ tc ∈ c.delta.tool_calls.getD [],
        tc.index = i → jsTruthyStr tc.id = true → tc.id = some cid) :
    (∀ ev ∈ (translateChatChunkToResponsesEvents chunk st).1, ∀ s,
        toolEventId? i ev = some s → s = cid ∨ s = "call_" ++ toString i)
    ∧ idInv i cid (translateChatChunkToResponsesEvents chunk st).2 := by
  have hst2 : idInv i cid
      (if st.sentCreated then st
        else { st with sentCreated := true, responseId := chunk.id }) := by
    by_cases h : st.sentCreated = true
    · rw [if_pos h]; exact hst
    · rw [if_neg h]; exact hst
  constructor
  · intro ev hev s hs
    rw [translateChunk_events, List.mem_append] at hev
    rcases hev with h | h
    · split at h
      · simp at h
      · rw [List.mem_singleton] at h
        subst h
        simp [toolEventId?] at hs
    · exact (processChoices_consistent i cid chunk chunk.choices _ hst2 hck).1 ev h s hs
  · rw [translateChunk_state]
    exact (processChoices_consistent i cid chunk chunk.choices _ hst2 hck).2

/-- Consistency through the whole stream. -/
theorem runChunks_consistent (i : Nat) (cid : String) (chunks : List ChatChunk)
    (st : StreamState) (hst : idInv i cid st)
    (hcks : ∀ chunk ∈ chunks, ∀ c ∈ chunk.choices, ∀ tc ∈ c.delta.tool_calls.getD [],
        tc.index = i → jsTruthyStr tc.id = true → tc.id = some cid) :
    (∀ ev ∈ (runChunks chunks st).1, ∀ s, toolEventId? i ev = some s →
        s = cid ∨ s = "call_" ++ toString i)
    ∧ idInv i cid (runChunks chunks st).2 := by
  induction chunks generalizing st with
  | nil => exact ⟨fun ev hev => absurd hev (List.not_mem_nil ev), hst⟩
  | cons c rest ih =>
      have h1 := translateChunk_consistent i cid c st hst (hcks c (by simp))
      have ihr := ih (translateChatChunkToResponsesEvents c st).2 h1.2
        (fun c2 h2m => hcks c2 (by simp [h2m]))
      constructor
      · intro ev hev
        rw [show (runChunks (c :: rest) st).1
            = (translateChatChunkToResponsesEvents c st).1
              ++ (runChunks rest (translateChatChunkToResponsesEvents c st).2).1 from rfl,
          List.mem_append] at hev
        rcases hev with h | h
        · exact h1.1 ev h
        · exact ihr.1 ev h
      · exact ihr.2

/-- Counterexample for C6 as stated: when a second, different permanent id
arrives for the same index, the map keeps the latest id, not the first — the
fragment after `call_b` arrives is attributed to `call_b` even though the
first permanent id seen for index 0 was `call_a`, and the final map entry is
`call_b`. -/
theorem tool_call_first_id_counterexample :
    (runChunks [overwriteChunk1, overwriteChunk2, overwriteChunk3]
        mkFreshStreamState).1
      = [StreamEvent.created "id1" 1 "m",
         StreamEvent.outputItemAdded 0 "call_a" "call_a" "foo" "",
         StreamEvent.functionCallArgumentsDelta "call_a" 0 "x",
         StreamEvent.functionCallArgumentsDelta "call_b" 0 "y",
         StreamEvent.completedEvent "id1" "completed"]
    ∧ mapGet (runChunks [overwriteChunk1, overwriteChunk2, overwriteChunk3]
        mkFreshStreamState).2.toolCallIds 0 = some "call_b"
    ∧ ("call_b" : String) ≠ "call_a" := by
  refine ⟨rfl, rfl, by decide⟩

/-- C6 (amended): the `toolCallIds` map stores the most recently seen truthy
permanent id for an index (within a fragment, events use the id remembered
before that fragment's own update, falling back to the fragment's own id and
then to the placeholder); consequently, when at most one distinct permanent
id is ever sent for an index — the normal case — every tool-call event for
that index carries either that id or the placeholder `call_<index>`, never
any other id; in particular, for the scenario chunk 1
`tool_calls:[index 0, id call_1, name foo]` and chunk 2
`[index 0, arguments ...]`, chunk 1 emits OutputItemAdded with id `call_1`
and chunk 2 emits FunctionCallArgumentsDelta with item_id `call_1`, not the
placeholder. -/
theorem tool_call_event_id_consistent (chunks : List ChatChunk) (i : Nat)
    (cid : String)
    (huniq : ∀ chunk ∈ chunks, ∀ c ∈ chunk.choices,
        ∀ tc ∈ c.delta.tool_calls.getD [],
        tc.index = i → jsTruthyStr tc.id = true → tc.id = some cid) :
    (∀ ev ∈ (runChunks chunks mkFreshStreamState).1, ∀ s,
        toolEventId? i ev = some s → s = cid ∨ s = "call_" ++ toString i)
    ∧ (runChunks [scenarioChunk1, scenarioChunk2] mkFreshStreamState).1
        = [StreamEvent.created "id1" 1 "m",
           StreamEvent.outputItemAdded 0 "call_1" "call_1" "foo" "",
           StreamEvent.functionCallArgumentsDelta "call_1" 0 "argstext"] := by
  exact ⟨(runChunks_consistent i cid chunks mkFreshStreamState (Or.inl rfl) huniq).1,
    rfl⟩

/-- Witness for C6 (amended) at the scenario input: the uniqueness hypothesis
holds for index 0 with id `call_1`, and the scenario events carry `call_1`. -/
theorem tool_call_event_id_consistent_witness :
    (runChunks [scenarioChunk1, scenarioChunk2] mkFreshStreamState).1
      = [StreamEvent.created "id1" 1 "m",
         StreamEvent.outputItemAdded 0 "call_1" "call_1" "foo" "",
         StreamEvent.functionCallArgumentsDelta "call_1" 0 "argstext"] :=
  (tool_call_event_id_consistent [scenarioChunk1, scenarioChunk2] 0 "call_1"
    (by decide)).2

end CopilotProxy
